import Mathlib

/-!
Verification development for the `cli-ai` terminal assistant.

This file gives a shallow embedding, in Lean 4, of the pure logic of the
interactive terminal components of the repository:

* `InteractiveCommandInterface._assess_command_risk` (ui.py): risk
  classification of a command string by regular-expression signatures;
* `CommandEditor.edit_command` (ui.py): the per-keystroke transition of the
  command-line editor state (buffer, cursor, history, insert mode);
* `InteractiveCommandInterface.handle_gesture_input`,
  `process_command_interaction` and `show_alternatives` (ui.py): the
  gesture-based review loop, modelled as a step function from a suggestion and
  a dispatched action to a loop outcome plus an effect trace;
* `InteractiveCommandInterface._draw_box` (ui.py): the content-row layout of
  the box renderer, including ANSI-escape stripping for width measurement;
* `CrossPlatformUtils.copy_to_clipboard` (cross_platform_utils.py): the
  clipboard shim's control flow, with the OS interactions abstracted into an
  environment record.

Python strings are modelled as `List Char` (or `String` at the interfaces),
Python `int` as `Int` where negative sentinels occur and as `Nat` otherwise.
Python slices `s[:k]`/`s[k:]` for `0 ≤ k` are `List.take`/`List.drop`, which
clamp exactly as Python does. Regular-expression matching with `re.IGNORECASE`
is modelled by matching lowercase patterns against the lowercased input
(all pattern literals in the source are ASCII).
-/

/-- ASCII lowercasing of one character, modelling Python `str.lower` on the
ASCII range (all characters the risk patterns inspect are ASCII). -/
def lowerChar (c : Char) : Char :=
  if 65 ≤ c.toNat ∧ c.toNat ≤ 90 then Char.ofNat (c.toNat + 32) else c

/-- Lowercasing of a whole string (as a character list), modelling
`command.lower()` and the effect of `re.IGNORECASE` on ASCII patterns. -/
def pyLower (s : List Char) : List Char :=
  s.map lowerChar

/-- Prefix test written out recursively; used to model Python substring tests. -/
def listStartsWith : List Char → List Char → Bool
  | _, [] => true
  | [], _ :: _ => false
  | h :: t, n :: m => h == n && listStartsWith t m

/-- Python `needle in hay` on strings: some contiguous occurrence. -/
def containsSub : List Char → List Char → Bool
  | [], needle => needle.isEmpty
  | h :: t, needle => listStartsWith (h :: t) needle || containsSub t needle

/-- Python `\s` / `str.isspace` on the ASCII range. -/
def isPySpace (c : Char) : Bool :=
  c == ' ' || c == '\t' || c == '\n' || c == '\x0d' || c == '\x0b' || c == '\x0c'

/-- Python `\w` (word character) on the ASCII range, used for `\b`. -/
def isWordChar (c : Char) : Bool :=
  (97 ≤ c.toNat && c.toNat ≤ 122) || (65 ≤ c.toNat && c.toNat ≤ 90) ||
  (48 ≤ c.toNat && c.toNat ≤ 57) || c == '_'

/-!
A small regular-expression abstract syntax covering exactly the constructs the
risk signatures of `_assess_command_risk` use: literals, character classes,
concatenation, `*` and `+` over character classes, the word boundary `\b` and
the end anchor `$`.  `re.search` truthiness is modelled by `regSearch`.
-/

/-- Regular-expression syntax for the risk signatures.  Iteration only ever
occurs over a character class in the source patterns, so `starCls` suffices. -/
inductive Reg
  | eps
  | cls (p : Char → Bool)
  | cat (a b : Reg)
  | alt (a b : Reg)
  | starCls (p : Char → Bool)
  | wb
  | eol

/-- All states reachable by consuming zero or more `p`-characters: the residue
set of `p*` at a position, together with the preceding character. -/
def starRes (p : Char → Bool) (prev : Option Char) (s : List Char) :
    List (Option Char × List Char) :=
  (prev, s) ::
    match s with
    | [] => []
    | c :: r => if p c then starRes p (some c) r else []

/-- Python `\b`: the previous and next characters disagree on wordness. -/
def boundaryOk (prev : Option Char) (s : List Char) : Bool :=
  (match prev with
   | some c => isWordChar c
   | none => false) !=
  (match s with
   | c :: _ => isWordChar c
   | [] => false)

/-- Python `$` without `re.MULTILINE`: end of string, or just before one final
newline. -/
def eolOk (s : List Char) : Bool :=
  match s with
  | [] => true
  | ['\n'] => true
  | _ => false

/-- All residues of matching `r` at the start of `s`, with `prev` the character
just before the current position (for `\b`). -/
def residues : Reg → Option Char → List Char → List (Option Char × List Char)
  | .eps, prev, s => [(prev, s)]
  | .cls _, _, [] => []
  | .cls p, _, c :: r => if p c then [(some c, r)] else []
  | .cat a b, prev, s => (residues a prev s).flatMap fun pr => residues b pr.1 pr.2
  | .alt a b, prev, s => residues a prev s ++ residues b prev s
  | .starCls p, prev, s => starRes p prev s
  | .wb, prev, s => if boundaryOk prev s then [(prev, s)] else []
  | .eol, prev, s => if eolOk s then [(prev, s)] else []

/-- Does `r` match starting exactly at the current position? -/
def matchesAt (r : Reg) (prev : Option Char) (s : List Char) : Bool :=
  !(residues r prev s).isEmpty

/-- Is there a match starting at the current or any later position? -/
def searchFrom (r : Reg) (prev : Option Char) (s : List Char) : Bool :=
  match s with
  | [] => matchesAt r prev []
  | c :: rest => matchesAt r prev s || searchFrom r (some c) rest

/-- Truthiness of Python `re.search(r, s)`. -/
def regSearch (r : Reg) (s : List Char) : Bool :=
  searchFrom r none s

/-- A single literal character. -/
def rchr (c : Char) : Reg :=
  .cls fun x => x == c

/-- Concatenation of a list of regular expressions. -/
def rseq (l : List Reg) : Reg :=
  l.foldr .cat .eps

/-- A literal string. -/
def rlit (s : String) : Reg :=
  rseq (s.data.map rchr)

/-- Class `\s` as a regular expression. -/
def wsCls : Reg :=
  .cls isPySpace

/-- Pattern `\s+`. -/
def wsPlus : Reg :=
  .cat wsCls (.starCls isPySpace)

/-- Pattern `.*`: any characters except newline. -/
def dotStar : Reg :=
  .starCls fun c => c != '\n'

/-!
The signature lists of `_assess_command_risk` (ui.py lines 628-647), written
with lowercase literals since matching happens on the lowercased command
(modelling `re.IGNORECASE`).
-/

/-- List `dangerous_patterns` from `_assess_command_risk`. -/
def dangerous_patterns : List Reg :=
  [ rseq [.wb, rlit "rm", wsPlus, dotStar, rlit "-r"],
    rseq [.wb, rlit "dd", wsPlus],
    rseq [.wb, rlit "mkfs."],
    rseq [.wb, rlit "format", .wb],
    rseq [.wb, rlit "fdisk", .wb],
    rseq [.wb, rlit "shred", .wb],
    rseq [.wb, rlit "chmod", wsPlus, rlit "777"],
    rseq [.wb, rlit "chown", wsPlus, dotStar, rlit "root"],
    rseq [rlit ">", .starCls isPySpace, rlit "/dev/"],
    rseq [.wb, rlit "crontab", wsPlus, rlit "-r"],
    rseq [.wb, rlit "iptables", wsPlus, rlit "-f"] ]

/-- List `destructive_patterns` from `_assess_command_risk`. -/
def destructive_patterns : List Reg :=
  [ rseq [.wb, rlit "rm", wsPlus, dotStar, rlit "/"],
    rseq [.wb, rlit "mv", wsPlus, dotStar, wsPlus, rlit "/dev/null"],
    rseq [.wb, rlit "truncate", wsPlus],
    rseq [rlit ">", .starCls isPySpace,
          .starCls (fun c => !(c == '|' || c == '&' || c == ';')), .eol] ]

/-- Does some dangerous signature match the (lowercased) command? -/
def dangerousHit (command : String) : Bool :=
  dangerous_patterns.any fun p => regSearch p (pyLower command.data)

/-- Does some destructive signature match the (lowercased) command? -/
def destructiveHit (command : String) : Bool :=
  destructive_patterns.any fun p => regSearch p (pyLower command.data)

/-- Test `'sudo' in command.lower()`. -/
def sudoHit (command : String) : Bool :=
  containsSub (pyLower command.data) "sudo".data

/-- Function `InteractiveCommandInterface._assess_command_risk` (ui.py lines 626-660):
first matching dangerous signature gives `("HIGH", True)`; else first matching
destructive signature gives `("MEDIUM", True)`; else a `sudo` substring gives
`("MEDIUM", False)`; else `("LOW", False)`. -/
def assess_command_risk (command : String) : String × Bool :=
  if dangerousHit command then ("HIGH", true)
  else if destructiveHit command then ("MEDIUM", true)
  else if sudoHit command then ("MEDIUM", false)
  else ("LOW", false)

example : assess_command_risk "rm -rf /tmp/x" = ("HIGH", true) := by decide
example : assess_command_risk "RM -RF /tmp/x" = ("HIGH", true) := by decide
example : assess_command_risk "ls -la" = ("LOW", false) := by decide
example : assess_command_risk "sudo apt update" = ("MEDIUM", false) := by decide
example : assess_command_risk "echo hi > out.txt" = ("MEDIUM", true) := by decide

/-!
`CommandEditor.edit_command` (ui.py lines 385-534).  The editor state is the
mutable state of the `CommandEditor` object during one `edit_command` session:
the buffer, cursor, history list, history index (Python `int`, `-1` sentinel)
and insert/overwrite flag.  `initial` is the `initial_command` argument
captured by the loop.  Each branch of the `elif` chain becomes one case of the
key-event type; keys the chain does not recognise leave the state unchanged,
as does a key that terminates the loop (`Enter`, `Ctrl+C`, `Ctrl+D` on an
empty buffer).
-/

/-- The editor state mutated by `edit_command`. -/
structure EditorState where
  command : List Char
  cursor_pos : Nat
  history : List (List Char)
  history_index : Int
  insert_mode : Bool
deriving Repr, DecidableEq

/-- Decoded key events, one per branch of the `elif` chain of
`edit_command`; `other` stands for any key no branch recognises. -/
inductive EditorKey
  | enter
  | ctrlC
  | ctrlD
  | backspace
  | delete
  | leftArrow
  | rightArrow
  | ctrlLeft
  | ctrlRight
  | home
  | endKey
  | ctrlU
  | ctrlK
  | ctrlW
  | ctrlDelete
  | upArrow
  | downArrow
  | insertKey
  | printable (c : Char)
  | other
deriving Repr, DecidableEq

/-- Loop `while pos > 0 and p(cmd[pos]): pos -= 1`, returning the final `pos`. -/
def skipBackWhile (p : Char → Bool) (cmd : List Char) : Nat → Nat
  | 0 => 0
  | n + 1 => if p (cmd.getD (n + 1) ' ') then skipBackWhile p cmd n else n + 1

/-- Loop `while pos >= 0 and p(cmd[pos]): pos -= 1`, in shifted coordinates: the
argument and result are `pos + 1`, so that the loop's final `pos = -1` is
represented by `0`. -/
def skipBackWhileGe (p : Char → Bool) (cmd : List Char) : Nat → Nat
  | 0 => 0
  | n + 1 => if p (cmd.getD n ' ') then skipBackWhileGe p cmd n else n + 1

/-- Loop `while pos < len(cmd) and p(cmd[pos]): pos += 1`, returning the final
`pos`. -/
def skipFwdWhile (p : Char → Bool) (cmd : List Char) (pos : Nat) : Nat :=
  if pos < cmd.length ∧ p (cmd.getD pos ' ') then skipFwdWhile p cmd (pos + 1)
  else pos
termination_by cmd.length - pos
decreasing_by omega

/-- Target cursor of Ctrl+Left (word left), ui.py lines 431-444: skip
whitespace backward, then word characters backward, then whitespace forward. -/
def wordLeftPos (cmd : List Char) (cursor : Nat) : Nat :=
  skipFwdWhile isPySpace cmd
    (skipBackWhile (fun c => !isPySpace c) cmd
      (skipBackWhile isPySpace cmd (cursor - 1)))

/-- Target cursor of Ctrl+Right (word right), ui.py lines 446-456: skip word
characters forward, then whitespace forward. -/
def wordRightPos (cmd : List Char) (cursor : Nat) : Nat :=
  skipFwdWhile isPySpace cmd (skipFwdWhile (fun c => !isPySpace c) cmd cursor)

/-- Start-of-word position used by Ctrl+W (ui.py lines 473-486): from
`cursor - 1` skip whitespace then word characters, both down to `-1`, then add
one; computed in the shifted coordinates of `skipBackWhileGe`. -/
def ctrlWPos (cmd : List Char) (cursor : Nat) : Nat :=
  skipBackWhileGe (fun c => !isPySpace c) cmd (skipBackWhileGe isPySpace cmd cursor)

/-- End-of-word position used by Ctrl+Delete (ui.py lines 488-499). -/
def ctrlDelPos (cmd : List Char) (cursor : Nat) : Nat :=
  skipFwdWhile (fun c => !isPySpace c) cmd (skipFwdWhile isPySpace cmd cursor)

/-- Access `history[-(history_index + 1)]` for a non-negative `history_index`, the
access made by the Up/Down branches; out-of-range access (impossible under the
editor invariant) yields `[]`. -/
def historyAt (history : List (List Char)) (idx : Int) : List Char :=
  history.getD (history.length - (idx.toNat + 1)) []

/-- One iteration of the `edit_command` key dispatch (ui.py lines 398-534):
the state after handling key `k` from state `st`, where `initial` is the
`initial_command` argument of `edit_command`. -/
def edit_command_step (initial : List Char) (st : EditorState) (k : EditorKey) :
    EditorState :=
  match k with
  | .enter => st
  | .ctrlC => st
  | .ctrlD => st
  | .backspace =>
    if st.cursor_pos > 0 then
      { st with
        command := st.command.take (st.cursor_pos - 1) ++ st.command.drop st.cursor_pos,
        cursor_pos := st.cursor_pos - 1 }
    else st
  | .delete =>
    if st.cursor_pos < st.command.length then
      { st with
        command := st.command.take st.cursor_pos ++ st.command.drop (st.cursor_pos + 1) }
    else st
  | .leftArrow =>
    if st.cursor_pos > 0 then { st with cursor_pos := st.cursor_pos - 1 } else st
  | .rightArrow =>
    if st.cursor_pos < st.command.length then
      { st with cursor_pos := st.cursor_pos + 1 }
    else st
  | .ctrlLeft =>
    if st.cursor_pos > 0 then
      { st with cursor_pos := wordLeftPos st.command st.cursor_pos }
    else st
  | .ctrlRight =>
    if st.cursor_pos < st.command.length then
      { st with cursor_pos := wordRightPos st.command st.cursor_pos }
    else st
  | .home => { st with cursor_pos := 0 }
  | .endKey => { st with cursor_pos := st.command.length }
  | .ctrlU =>
    { st with command := st.command.drop st.cursor_pos, cursor_pos := 0 }
  | .ctrlK =>
    { st with command := st.command.take st.cursor_pos }
  | .ctrlW =>
    if st.cursor_pos > 0 then
      let pos := ctrlWPos st.command st.cursor_pos
      { st with
        command := st.command.take pos ++ st.command.drop st.cursor_pos,
        cursor_pos := pos }
    else st
  | .ctrlDelete =>
    if st.cursor_pos < st.command.length then
      let pos := ctrlDelPos st.command st.cursor_pos
      { st with
        command := st.command.take st.cursor_pos ++ st.command.drop pos }
    else st
  | .upArrow =>
    if st.history ≠ [] ∧ st.history_index < (st.history.length : Int) - 1 then
      let i := st.history_index + 1
      let cmd := historyAt st.history i
      { st with history_index := i, command := cmd, cursor_pos := cmd.length }
    else st
  | .downArrow =>
    if st.history_index > 0 then
      let i := st.history_index - 1
      let cmd := historyAt st.history i
      { st with history_index := i, command := cmd, cursor_pos := cmd.length }
    else if st.history_index = 0 then
      { st with history_index := -1, command := initial, cursor_pos := initial.length }
    else st
  | .insertKey => { st with insert_mode := !st.insert_mode }
  | .printable c =>
    if st.insert_mode then
      { st with
        command := st.command.take st.cursor_pos ++ c :: st.command.drop st.cursor_pos,
        cursor_pos := st.cursor_pos + 1 }
    else
      if st.cursor_pos < st.command.length then
        { st with
          command := st.command.take st.cursor_pos ++ c :: st.command.drop (st.cursor_pos + 1),
          cursor_pos := st.cursor_pos + 1 }
      else
        { st with command := st.command ++ [c], cursor_pos := st.cursor_pos + 1 }
  | .other => st

/-- The `EditBuffer` invariant: cursor within buffer bounds, history cursor
either the `-1` sentinel or a valid history index. -/
def EditorInvariant (st : EditorState) : Prop :=
  st.cursor_pos ≤ st.command.length ∧
    (st.history_index = -1 ∨
      (0 ≤ st.history_index ∧ st.history_index < (st.history.length : Int)))

instance (st : EditorState) : Decidable (EditorInvariant st) := by
  unfold EditorInvariant
  infer_instance

/-!
The gesture-based review interface (ui.py lines 536-948).  `CommandSuggestion`
is the dataclass of ui.py lines 71-81.  `handle_gesture_input` is modelled per
key: keys its `elif` chain does not recognise make the inner `while` loop
continue, which `gestureKeyResult = none` represents.  One iteration of the
`while True` loop of `process_command_interaction` is `process_step`: the
clipboard success/failure and the value returned by `show_alternatives` enter
as parameters, print/sleep side effects are recorded in an effect trace, and
the iteration either returns a value to the caller (`LoopOutcome.ret`) or
loops back to redrawing the preview (`LoopOutcome.again`).
-/

/-- The `CommandSuggestion` dataclass (ui.py lines 71-81). -/
structure CommandSuggestion where
  command : String
  explanation : String
  risk_level : String
  alternatives : List String
  context_hints : List String
  estimated_time : Option String := none
  requires_sudo : Bool := false
  is_destructive : Bool := false
deriving Repr, DecidableEq

/-- Observable side effects of one review-loop iteration. -/
inductive ReviewEffect
  | copyClipboard (text : String)
  | reportCopySuccess
  | reportCopyFailure (shownCommand : String)
  | noAlternativesNotice
  | clearScreen
  | showHelp
deriving Repr, DecidableEq

/-- Python `f"...{opt}..."` rendering of an `Optional[str]`. -/
def pyFormatOpt : Option String → String
  | some s => s
  | none => "None"

/-- One key of `handle_gesture_input` (ui.py lines 814-849): `none` when the
`elif` chain ignores the key and the read loop just continues; otherwise the
returned `(action, result)` pair together with the prints the branch makes. -/
def handle_gesture_input (suggestion : CommandSuggestion) (key : String) :
    Option ((String × Option String) × List ReviewEffect) :=
  if key = "\x0d" ∨ key = "\n" then some (("execute", some suggestion.command), [])
  else if key = "\t" then some (("accept", some suggestion.command), [])
  else if key = "\x03" then some (("clipboard", some suggestion.command), [])
  else if key = "\x01" then
    if suggestion.alternatives ≠ [] then some (("alternatives", none), [])
    else some (("redraw", none), [.noAlternativesNotice])
  else if key = "\x1b" then some (("cancel", none), [])
  else if key = "\x1f" ∨ key = "?" then some (("help", none), [])
  else none

/-- Whether one iteration of `process_command_interaction` returns to its
caller with a value, or loops back to `display_command_preview`. -/
inductive LoopOutcome
  | ret (v : Option String)
  | again
deriving Repr, DecidableEq

/-- The selection step applied by the `alternatives` branch (ui.py lines
913-917): a truthy `selected` replaces `suggestion.command`; `None` — and an
empty selected string, which is equally falsy — leaves it unchanged. -/
def apply_alternative (suggestion : CommandSuggestion) (selected : Option String) :
    CommandSuggestion :=
  match selected with
  | some sel => if sel ≠ "" then { suggestion with command := sel } else suggestion
  | none => suggestion

/-- One iteration of the dispatch in `process_command_interaction` (ui.py
lines 888-928) after `handle_gesture_input` returned `(action, result)`:
`clipOk` is the value of `self.copy_to_clipboard(result)` (only consulted by
the clipboard branch) and `altSel` the value of `self.show_alternatives(...)`
(only consulted by the alternatives branch).  Returns the loop outcome, the
suggestion record after the iteration, and the effect trace. -/
def process_step (suggestion : CommandSuggestion) (action : String)
    (result : Option String) (clipOk : Bool) (altSel : Option String) :
    LoopOutcome × CommandSuggestion × List ReviewEffect :=
  if action = "execute" then (.ret result, suggestion, [])
  else if action = "accept" then
    (.ret (some ("ACCEPT:" ++ pyFormatOpt result)), suggestion, [])
  else if action = "clipboard" then
    (.ret none, suggestion,
      [.copyClipboard (pyFormatOpt result)] ++
        if clipOk then [.reportCopySuccess]
        else [.reportCopyFailure (pyFormatOpt result)])
  else if action = "alternatives" then
    (.again, apply_alternative suggestion altSel, [])
  else if action = "cancel" then (.ret none, suggestion, [])
  else if action = "help" then (.again, suggestion, [.showHelp])
  else if action = "redraw" then (.again, suggestion, [.clearScreen])
  else (.again, suggestion, [])

/-- Python `str.isdigit` on the ASCII range. -/
def pyIsDigit (s : String) : Bool :=
  s ≠ "" && s.data.all fun c => 48 ≤ c.toNat && c.toNat ≤ 57

/-- Numeric value of a digit string, Python `int(s)`. -/
def pyInt (s : String) : Nat :=
  s.data.foldl (fun acc c => acc * 10 + (c.toNat - 48)) 0

/-- State of the selection loop of `show_alternatives`: finished with a
result, or continuing with the current `selection` string. -/
inductive AltLoopState
  | done (r : Option String)
  | cont (selection : String)
deriving Repr, DecidableEq

/-- One key of the selection loop of `show_alternatives` (ui.py lines
866-886), from current `selection`:  Enter returns `alternatives[idx]` for an
in-range digit selection and `None` otherwise; Ctrl+C and Escape return
`None`; a digit key replaces the selection; any other key is ignored. -/
def show_alternatives_step (alternatives : List String) (selection : String)
    (key : String) : AltLoopState :=
  if key = "\x0d" ∨ key = "\n" then
    .done
      (if pyIsDigit selection then
        let idx : Int := (pyInt selection : Int) - 1
        if 0 ≤ idx ∧ idx < (alternatives.length : Int) then
          some (alternatives.getD idx.toNat "")
        else none
      else none)
  else if key = "\x03" ∨ key = "\x1b" then .done none
  else if pyIsDigit key then .cont key
  else .cont selection

/-!
`CrossPlatformUtils.copy_to_clipboard` (cross_platform_utils.py lines
277-334).  The interactions with the operating system are abstracted into an
environment: the result of `get_clipboard_command()`, whether `Popen` raises,
whether `communicate` times out, whether the process exits with status 0, and
the result of `_verify_clipboard_contents`.  Launching the external clipboard
process is recorded as an effect.
-/

/-- Environment describing the OS-dependent outcomes inside
`copy_to_clipboard`. -/
structure ClipboardEnv where
  clipboard_cmd : Option String
  spawn_raises : Bool
  times_out : Bool
  returncode_zero : Bool
  verify_ok : Bool
deriving Repr, DecidableEq

/-- Effects of `copy_to_clipboard`: launching the platform clipboard
process. -/
inductive ClipEffect
  | runClipboardCommand (cmd : String)
deriving Repr, DecidableEq

/-- Function `CrossPlatformUtils.copy_to_clipboard` (cross_platform_utils.py lines
277-334): falsy text and a missing (or falsy) clipboard command short-circuit
to `False` before any process is launched; otherwise the process is run and
the result depends on spawn failure, timeout, exit status, and — for
`xclip`/`xsel` — the verification read-back. -/
def copy_to_clipboard (env : ClipboardEnv) (text : String) :
    Bool × List ClipEffect :=
  if text = "" then (false, [])
  else if env.clipboard_cmd = none ∨ env.clipboard_cmd = some "" then (false, [])
  else
    let cmd := env.clipboard_cmd.getD ""
    if env.spawn_raises then (false, [.runClipboardCommand cmd])
    else if env.times_out then (false, [.runClipboardCommand cmd])
    else if env.returncode_zero then
      if containsSub cmd.data "xclip".data || containsSub cmd.data "xsel".data then
        (env.verify_ok, [.runClipboardCommand cmd])
      else (true, [.runClipboardCommand cmd])
    else (false, [.runClipboardCommand cmd])


/-!
`InteractiveCommandInterface._draw_box` (ui.py lines 563-624).  The ANSI
pattern used there is ESC followed by either a single byte in 0x40-0x5A or
0x5C-0x5F, or by a CSI sequence: an opening bracket, then parameter bytes
(0x30-0x3F), then intermediate bytes (0x20-0x2F), then one final byte
(0x40-0x7E).  Since those three CSI character classes are pairwise disjoint,
the greedy quantifiers never backtrack and `re.sub` is exactly the
deterministic scanner `stripAnsi`: every ESC that heads a full match is
removed together with its sequence, every other character is kept.
-/

/-- The two-character escape class after ESC (bytes 0x40-0x5A and
0x5C-0x5F). -/
def isAnsiSingle (c : Char) : Bool :=
  (64 ≤ c.toNat && c.toNat ≤ 90) || (92 ≤ c.toNat && c.toNat ≤ 95)

/-- CSI parameter bytes, 0x30-0x3F. -/
def isCsiParam (c : Char) : Bool :=
  48 ≤ c.toNat && c.toNat ≤ 63

/-- CSI intermediate bytes, 0x20-0x2F. -/
def isCsiInter (c : Char) : Bool :=
  32 ≤ c.toNat && c.toNat ≤ 47

/-- CSI final bytes, 0x40-0x7E. -/
def isCsiFinal (c : Char) : Bool :=
  64 ≤ c.toNat && c.toNat ≤ 126

theorem dropWhile_length_le (p : Char → Bool) (l : List Char) :
    (l.dropWhile p).length ≤ l.length := by
  induction l with
  | nil => simp
  | cons a b ih =>
    simp only [List.dropWhile_cons]
    split
    · exact Nat.le_succ_of_le ih
    · simp

/-- After an ESC, try to match the rest of the escape-sequence pattern;
`some r` is the input remaining after a match, `none` means no match starts at
this ESC. -/
def ansiTail : List Char → Option (List Char)
  | [] => none
  | c :: r =>
    if isAnsiSingle c then some r
    else if c = '[' then
      match (r.dropWhile isCsiParam).dropWhile isCsiInter with
      | [] => none
      | c2 :: r3 => if isCsiFinal c2 then some r3 else none
    else none

theorem ansiTail_length_le {r r' : List Char} (h : ansiTail r = some r') :
    r'.length ≤ r.length := by
  match r with
  | [] => simp [ansiTail] at h
  | c :: t =>
    have h1 : (t.dropWhile isCsiParam).length ≤ t.length :=
      dropWhile_length_le _ _
    have h2 : ((t.dropWhile isCsiParam).dropWhile isCsiInter).length ≤
        (t.dropWhile isCsiParam).length :=
      dropWhile_length_le _ _
    simp only [ansiTail] at h
    split at h
    · cases h
      simp
    · split at h
      · split at h
        next heq => cases h
        next c2 r3 heq =>
          split at h
          · cases h
            rw [heq] at h2
            simp only [List.length_cons] at h2
            simp only [List.length_cons]
            omega
          · cases h
      · cases h

/-- Substitution `re.sub` of the ANSI pattern by the empty string: remove every ANSI escape
sequence, keep everything else. -/
def stripAnsi (l : List Char) : List Char :=
  match l with
  | [] => []
  | c :: rest =>
    if c = '\x1b' then
      match h : ansiTail rest with
      | some r2 => stripAnsi r2
      | none => c :: stripAnsi rest
    else c :: stripAnsi rest
termination_by l.length
decreasing_by
  · have := ansiTail_length_le h
    simp only [List.length_cons]
    omega
  · simp
  · simp

/-- Python `line[:k]` for an `int` bound `k` (negative bounds count from the
end, clamped at zero). -/
def pySliceTo (l : List Char) (k : Int) : List Char :=
  if k < 0 then l.take (l.length - (-k).toNat) else l.take k.toNat

/-- One content row of `_draw_box` (ui.py lines 604-620): measure the line
with ANSI codes stripped, truncate with an ellipsis if it exceeds the interior
width, then pad with spaces between one-space margins and the two border
glyphs.  Comparisons are over `Int` as in Python. -/
def draw_box_content_row (width : Nat) (vertical : Char) (line : List Char) :
    List Char :=
  let clean_line := stripAnsi line
  let display_line :=
    if (clean_line.length : Int) > (width : Int) - 4 then
      pySliceTo line ((width : Int) - 7) ++ ['.', '.', '.']
    else line
  let clean_display := stripAnsi display_line
  let padding : Int := (width : Int) - (clean_display.length : Int) - 4
  [vertical, ' '] ++ display_line ++ List.replicate padding.toNat ' ' ++ [' ', vertical]

/-- The vertical border glyphs `_draw_box` can select (normal and rounded
styles use the light vertical bar, double style the double bar, and the ASCII
fallback a dash). -/
def verticalGlyphs : List Char :=
  ['│', '║', '-']

/-!
Facts about `stripAnsi` needed for the box-width theorem: unfolding equations,
and the key concatenation property — appending a tail of "safe" characters
(no ESC, no CSI final byte, no CSI parameter byte) commutes with stripping,
because such a tail can neither start an escape sequence nor complete one that
an adversarial content line left unfinished.
-/

theorem stripAnsi_nil : stripAnsi [] = [] := by
  rw [stripAnsi]

theorem stripAnsi_cons_esc_some {rest r2 : List Char} (hs : ansiTail rest = some r2) :
    stripAnsi ('\x1b' :: rest) = stripAnsi r2 := by
  rw [stripAnsi]
  rw [if_pos rfl]
  split
  · rename_i r2' h'
    rw [hs] at h'
    cases h'
    rfl
  · rename_i h'
    rw [hs] at h'
    cases h'

theorem stripAnsi_cons_esc_none {rest : List Char} (hs : ansiTail rest = none) :
    stripAnsi ('\x1b' :: rest) = '\x1b' :: stripAnsi rest := by
  rw [stripAnsi]
  rw [if_pos rfl]
  split
  · rename_i r2' h'
    rw [hs] at h'
    cases h'
  · rfl

theorem stripAnsi_cons_other {c : Char} {rest : List Char} (hc : c ≠ '\x1b') :
    stripAnsi (c :: rest) = c :: stripAnsi rest := by
  rw [stripAnsi]
  rw [if_neg hc]

/-- Characters that can safely follow arbitrary text without starting or
completing an ANSI escape sequence. -/
def SafePad (c : Char) : Prop :=
  c ≠ '\x1b' ∧ isCsiFinal c = false ∧ isCsiParam c = false

instance (c : Char) : Decidable (SafePad c) := by
  unfold SafePad
  infer_instance

theorem ansiTail_append_some {r r' t : List Char} (h : ansiTail r = some r') :
    ansiTail (r ++ t) = some (r' ++ t) := by
  match r with
  | [] => simp [ansiTail] at h
  | c :: s =>
    simp only [List.cons_append, ansiTail] at h ⊢
    by_cases h1 : isAnsiSingle c
    · rw [if_pos h1] at h ⊢
      cases h
      rfl
    · rw [if_neg h1] at h ⊢
      by_cases hbr : c = '['
      · rw [if_pos hbr] at h ⊢
        rcases hv : (s.dropWhile isCsiParam).dropWhile isCsiInter with _ | ⟨c2, r3⟩
        · rw [hv] at h
          cases h
        · rw [hv] at h
          have h' : (if isCsiFinal c2 = true then some r3 else none) = some r' := h
          have hune : ¬(s.dropWhile isCsiParam).isEmpty = true := by
            intro hemp
            rw [List.isEmpty_iff] at hemp
            rw [hemp] at hv
            simp at hv
          rw [List.dropWhile_append, if_neg hune, List.dropWhile_append]
          have hvne : ¬((s.dropWhile isCsiParam).dropWhile isCsiInter).isEmpty = true := by
            rw [hv]
            simp
          rw [if_neg hvne, hv]
          simp only [List.cons_append]
          by_cases hfin : isCsiFinal c2 = true
          · rw [if_pos hfin] at h'
            injection h' with hr
            subst hr
            show (if isCsiFinal c2 = true then some (r3 ++ t) else none) = some (r3 ++ t)
            rw [if_pos hfin]
          · rw [if_neg hfin] at h'
            cases h'
      · rw [if_neg hbr] at h
        cases h

theorem dropWhile_eq_self_of_none (p : Char → Bool) (t : List Char)
    (ht : ∀ c ∈ t, p c = false) : t.dropWhile p = t := by
  cases t with
  | nil => rfl
  | cons c0 t0 =>
    rw [List.dropWhile_cons, if_neg]
    rw [ht c0 (List.mem_cons_self c0 t0)]
    simp

theorem ansiTail_append_none {r t : List Char} (h : ansiTail r = none)
    (ht : ∀ c ∈ t, SafePad c) : ansiTail (r ++ t) = none := by
  have hsingle : ∀ c : Char, isAnsiSingle c = true → isCsiFinal c = true := by
    intro c hc
    simp only [isAnsiSingle, isCsiFinal, Bool.or_eq_true, Bool.and_eq_true,
      decide_eq_true_eq] at hc ⊢
    omega
  have hfint : ∀ c ∈ t, isCsiFinal c = false := fun c hc => (ht c hc).2.1
  have hpart : ∀ c ∈ t, isCsiParam c = false := fun c hc => (ht c hc).2.2
  have hmatchT : (match t.dropWhile isCsiInter with
      | [] => (none : Option (List Char))
      | c2 :: r3 => if isCsiFinal c2 then some r3 else none) = none := by
    rcases hv : t.dropWhile isCsiInter with _ | ⟨c2, r3⟩
    · rfl
    · have hc2 : c2 ∈ t := by
        have hsub : List.Sublist (t.dropWhile isCsiInter) t := t.dropWhile_sublist isCsiInter
        rw [hv] at hsub
        exact hsub.mem (List.mem_cons_self c2 r3)
      show (if isCsiFinal c2 = true then some r3 else none) = none
      rw [hfint c2 hc2]
      simp
  match r with
  | [] =>
    rw [List.nil_append]
    cases t with
    | nil => rfl
    | cons c0 t0 =>
      have hsafe := ht c0 (List.mem_cons_self c0 t0)
      simp only [ansiTail]
      rw [if_neg, if_neg]
      · intro hbr
        rw [hbr] at hsafe
        have hfb : isCsiFinal '[' = true := by decide
        rw [hsafe.2.1] at hfb
        cases hfb
      · intro hs
        have hf := hsingle c0 hs
        rw [hsafe.2.1] at hf
        cases hf
  | c :: s =>
    simp only [List.cons_append, ansiTail] at h ⊢
    by_cases h1 : isAnsiSingle c
    · rw [if_pos h1] at h
      cases h
    · rw [if_neg h1] at h ⊢
      by_cases hbr : c = '['
      · rw [if_pos hbr] at h ⊢
        rw [List.dropWhile_append]
        by_cases hu : (s.dropWhile isCsiParam).isEmpty = true
        · rw [if_pos hu]
          rw [dropWhile_eq_self_of_none _ t hpart]
          exact hmatchT
        · rw [if_neg hu, List.dropWhile_append]
          by_cases hv0 : ((s.dropWhile isCsiParam).dropWhile isCsiInter).isEmpty = true
          · rw [if_pos hv0]
            exact hmatchT
          · rw [if_neg hv0]
            rcases hv : (s.dropWhile isCsiParam).dropWhile isCsiInter with _ | ⟨c2, r3⟩
            · rw [hv] at hv0
              simp at hv0
            · rw [hv] at h
              have h' : (if isCsiFinal c2 = true then some r3 else none) = none := h
              by_cases hfin : isCsiFinal c2 = true
              · rw [if_pos hfin] at h'
                cases h'
              · show (if isCsiFinal c2 = true then some (r3 ++ t) else none) = none
                exact if_neg hfin
      · rw [if_neg hbr]

theorem stripAnsi_no_esc {t : List Char} (ht : ∀ c ∈ t, c ≠ '\x1b') :
    stripAnsi t = t := by
  induction t with
  | nil => exact stripAnsi_nil
  | cons c r ih =>
    rw [stripAnsi_cons_other (ht c (List.mem_cons_self c r))]
    rw [ih fun x hx => ht x (List.mem_cons_of_mem _ hx)]

theorem stripAnsi_append_safe {t : List Char} (ht : ∀ c ∈ t, SafePad c)
    (l : List Char) : stripAnsi (l ++ t) = stripAnsi l ++ t := by
  induction l using stripAnsi.induct with
  | case1 =>
    rw [List.nil_append, stripAnsi_nil, List.nil_append]
    exact stripAnsi_no_esc fun c hc => (ht c hc).1
  | case2 r3 r2 hs ih =>
    rw [List.cons_append, stripAnsi_cons_esc_some (ansiTail_append_some hs), ih,
      stripAnsi_cons_esc_some hs]
  | case3 r3 hn ih =>
    rw [List.cons_append, stripAnsi_cons_esc_none (ansiTail_append_none hn ht), ih,
      stripAnsi_cons_esc_none hn, List.cons_append]
  | case4 c r3 hne ih =>
    rw [List.cons_append, stripAnsi_cons_other hne, ih, stripAnsi_cons_other hne,
      List.cons_append]

/-!
Claim theorems.
-/

/-- C1: risk assessment is a pure, deterministic, case-insensitive function of
the command string: any dangerous-signature match yields `("HIGH", True)`;
otherwise any destructive-signature match yields `("MEDIUM", True)`; otherwise
a `sudo` substring yields `("MEDIUM", False)`; otherwise `("LOW", False)`;
and concretely `rm -rf /tmp/x` and `RM -RF /tmp/x` classify HIGH while
`ls -la` classifies LOW. -/
theorem C1_risk_assessment :
    (∀ c₁ c₂ : String, pyLower c₁.data = pyLower c₂.data →
      assess_command_risk c₁ = assess_command_risk c₂) ∧
    (∀ c : String, dangerousHit c = true →
      assess_command_risk c = ("HIGH", true)) ∧
    (∀ c : String, dangerousHit c = false → destructiveHit c = true →
      assess_command_risk c = ("MEDIUM", true)) ∧
    (∀ c : String, dangerousHit c = false → destructiveHit c = false →
      sudoHit c = true → assess_command_risk c = ("MEDIUM", false)) ∧
    (∀ c : String, dangerousHit c = false → destructiveHit c = false →
      sudoHit c = false → assess_command_risk c = ("LOW", false)) ∧
    assess_command_risk "rm -rf /tmp/x" = ("HIGH", true) ∧
    assess_command_risk "RM -RF /tmp/x" = ("HIGH", true) ∧
    assess_command_risk "ls -la" = ("LOW", false) := by
  refine ⟨?_, ?_, ?_, ?_, ?_, by decide, by decide, by decide⟩
  · intro c₁ c₂ h
    simp only [assess_command_risk, dangerousHit, destructiveHit, sudoHit, h]
  · intro c h
    simp [assess_command_risk, h]
  · intro c h1 h2
    simp [assess_command_risk, h1, h2]
  · intro c h1 h2 h3
    simp [assess_command_risk, h1, h2, h3]
  · intro c h1 h2 h3
    simp [assess_command_risk, h1, h2, h3]

/-- Witness for C1 at concrete inputs: the two case variants of the recursive
remove classify identically (and HIGH), and `ls -la` hits no signature and
classifies LOW. -/
theorem C1_risk_assessment_witness :
    assess_command_risk "RM -RF /tmp/x" = assess_command_risk "rm -rf /tmp/x" ∧
    assess_command_risk "ls -la" = ("LOW", false) :=
  ⟨C1_risk_assessment.1 "RM -RF /tmp/x" "rm -rf /tmp/x" (by decide),
   C1_risk_assessment.2.2.2.2.1 "ls -la" (by decide) (by decide) (by decide)⟩

/-- C10: `copy_to_clipboard` returns `False` on the empty string without
launching any external clipboard process, and a `True` result is only possible
for non-empty text when a (truthy) platform clipboard command was found. -/
theorem C10_copy_to_clipboard_guards :
    (∀ env : ClipboardEnv, copy_to_clipboard env "" = (false, [])) ∧
    (∀ (env : ClipboardEnv) (text : String),
      (copy_to_clipboard env text).1 = true →
        text ≠ "" ∧ ∃ cmd, env.clipboard_cmd = some cmd ∧ cmd ≠ "") := by
  constructor
  · intro env
    simp [copy_to_clipboard]
  · intro env text h
    unfold copy_to_clipboard at h
    by_cases ht : text = ""
    · rw [if_pos ht] at h
      simp at h
    · rw [if_neg ht] at h
      by_cases hcc : env.clipboard_cmd = none ∨ env.clipboard_cmd = some ""
      · rw [if_pos hcc] at h
        simp at h
      · push_neg at hcc
        rcases henv : env.clipboard_cmd with _ | cmd
        · exact absurd henv hcc.1
        · refine ⟨ht, cmd, rfl, ?_⟩
          intro hcmd
          apply hcc.2
          rw [henv, hcmd]

/-- A sample environment in which the clipboard copy succeeds. -/
def clipEnvSample : ClipboardEnv :=
  { clipboard_cmd := some "pbcopy", spawn_raises := false, times_out := false,
    returncode_zero := true, verify_ok := true }

/-- Witness for C10: in a concrete environment with `pbcopy` available, a
successful copy of `"hi"` implies the text was non-empty and a clipboard
command was found. -/
theorem C10_copy_to_clipboard_guards_witness :
    "hi" ≠ "" ∧ ∃ cmd, clipEnvSample.clipboard_cmd = some cmd ∧ cmd ≠ "" :=
  C10_copy_to_clipboard_guards.2 clipEnvSample "hi" (by decide)

/-- C7: for every content line whose ANSI-stripped length is below the
interior width (total width minus 4), the rendered box content row — border
glyph, space, line, padding, space, border glyph — has ANSI-stripped length
exactly the requested width, padding being computed from the stripped
length. -/
theorem C7_box_row_visible_width (width : Nat) (vertical : Char)
    (line : List Char) (hv : vertical ∈ verticalGlyphs)
    (hlen : (stripAnsi line).length + 4 < width) :
    (stripAnsi (draw_box_content_row width vertical line)).length = width := by
  have hvsafe : SafePad vertical ∧ vertical ≠ '\x1b' := by
    fin_cases hv <;> exact ⟨by decide, by decide⟩
  have hcond : ¬((stripAnsi line).length : Int) > (width : Int) - 4 := by
    omega
  simp only [draw_box_content_row, if_neg hcond]
  have hsafe : ∀ c ∈ List.replicate ((width : Int) - ((stripAnsi line).length : Int) - 4).toNat ' ' ++
      [' ', vertical], SafePad c := by
    intro c hc
    rcases List.mem_append.1 hc with hrep | hpair
    · rw [List.eq_of_mem_replicate hrep]
      exact ⟨by decide, by decide, by decide⟩
    · simp only [List.mem_cons, List.mem_singleton, List.not_mem_nil, or_false] at hpair
      rcases hpair with h1 | h1
      · rw [h1]
        decide
      · rw [h1]
        exact hvsafe.1
  rw [show ([vertical, ' '] : List Char) ++ line ++
        List.replicate ((width : Int) - ((stripAnsi line).length : Int) - 4).toNat ' ' ++
        [' ', vertical] =
      vertical :: ' ' ::
        (line ++ (List.replicate ((width : Int) - ((stripAnsi line).length : Int) - 4).toNat ' ' ++
          [' ', vertical])) by simp]
  rw [stripAnsi_cons_other hvsafe.2]
  rw [stripAnsi_cons_other (by decide : (' ' : Char) ≠ '\x1b')]
  rw [stripAnsi_append_safe hsafe]
  simp only [List.length_cons, List.length_append, List.length_replicate,
    List.length_nil]
  omega

/-!
Bounds for the editor's scanning loops, used by the invariant theorem.
-/

theorem skipBackWhile_le (p : Char → Bool) (cmd : List Char) (n : Nat) :
    skipBackWhile p cmd n ≤ n := by
  induction n with
  | zero => simp [skipBackWhile]
  | succ m ih =>
    rw [skipBackWhile]
    split
    · exact Nat.le_succ_of_le ih
    · exact Nat.le_refl _

theorem skipBackWhileGe_le (p : Char → Bool) (cmd : List Char) (n : Nat) :
    skipBackWhileGe p cmd n ≤ n := by
  induction n with
  | zero => simp [skipBackWhileGe]
  | succ m ih =>
    rw [skipBackWhileGe]
    split
    · exact Nat.le_succ_of_le ih
    · exact Nat.le_refl _

theorem skipFwdWhile_le (p : Char → Bool) (cmd : List Char) (pos : Nat)
    (h : pos ≤ cmd.length) : skipFwdWhile p cmd pos ≤ cmd.length := by
  induction pos using skipFwdWhile.induct p cmd with
  | case1 pos hc ih =>
    rw [skipFwdWhile, if_pos hc]
    exact ih (by omega)
  | case2 pos hc =>
    rw [skipFwdWhile, if_neg hc]
    exact h

theorem skipFwdWhile_ge (p : Char → Bool) (cmd : List Char) (pos : Nat) :
    pos ≤ skipFwdWhile p cmd pos := by
  induction pos using skipFwdWhile.induct p cmd with
  | case1 pos hc ih =>
    rw [skipFwdWhile, if_pos hc]
    omega
  | case2 pos hc =>
    rw [skipFwdWhile, if_neg hc]

theorem wordLeftPos_le (cmd : List Char) (cursor : Nat) (h : cursor ≤ cmd.length)
    (hpos : 0 < cursor) : wordLeftPos cmd cursor ≤ cmd.length := by
  unfold wordLeftPos
  apply skipFwdWhile_le
  have h1 := skipBackWhile_le isPySpace cmd (cursor - 1)
  have h2 := skipBackWhile_le (fun c => !isPySpace c) cmd
    (skipBackWhile isPySpace cmd (cursor - 1))
  omega

theorem wordRightPos_le (cmd : List Char) (cursor : Nat) (h : cursor ≤ cmd.length) :
    wordRightPos cmd cursor ≤ cmd.length := by
  unfold wordRightPos
  exact skipFwdWhile_le _ _ _ (skipFwdWhile_le _ _ _ h)

theorem ctrlWPos_le (cmd : List Char) (cursor : Nat) :
    ctrlWPos cmd cursor ≤ cursor := by
  unfold ctrlWPos
  have h1 := skipBackWhileGe_le isPySpace cmd cursor
  have h2 := skipBackWhileGe_le (fun c => !isPySpace c) cmd
    (skipBackWhileGe isPySpace cmd cursor)
  omega

theorem ctrlDelPos_ge (cmd : List Char) (cursor : Nat) :
    cursor ≤ ctrlDelPos cmd cursor := by
  unfold ctrlDelPos
  have h1 := skipFwdWhile_ge isPySpace cmd cursor
  have h2 := skipFwdWhile_ge (fun c => !isPySpace c) cmd
    (skipFwdWhile isPySpace cmd cursor)
  omega

theorem ctrlDelPos_le (cmd : List Char) (cursor : Nat) (h : cursor ≤ cmd.length) :
    ctrlDelPos cmd cursor ≤ cmd.length := by
  unfold ctrlDelPos
  exact skipFwdWhile_le _ _ _ (skipFwdWhile_le _ _ _ h)

/-- C3: in insert mode, a printable character typed at any cursor position
`p ≤ len(buffer)` yields a buffer one longer whose character at index `p` is
the typed character, with the prefix before `p` and the suffix after `p`
preserved, and the cursor moves to `p + 1`. -/
theorem C3_insert_printable (initial : List Char) (st : EditorState) (c : Char)
    (hmode : st.insert_mode = true) (hp : st.cursor_pos ≤ st.command.length) :
    (edit_command_step initial st (.printable c)).command.length =
      st.command.length + 1 ∧
    (edit_command_step initial st (.printable c)).command.getD st.cursor_pos ' ' = c ∧
    (edit_command_step initial st (.printable c)).command.take st.cursor_pos =
      st.command.take st.cursor_pos ∧
    (edit_command_step initial st (.printable c)).command.drop (st.cursor_pos + 1) =
      st.command.drop st.cursor_pos ∧
    (edit_command_step initial st (.printable c)).cursor_pos = st.cursor_pos + 1 := by
  simp only [edit_command_step, hmode, if_true]
  refine ⟨?_, ?_, ?_, ?_, trivial⟩
  · simp only [List.length_append, List.length_take, List.length_cons,
      List.length_drop]
    omega
  · rw [List.getD_eq_getElem?_getD,
      List.getElem?_append_right (by simp only [List.length_take]; omega)]
    simp [List.length_take, Nat.min_eq_left hp]
  · rw [List.take_append_of_le_length (by simp only [List.length_take]; omega)]
    simp [Nat.min_eq_left hp]
  · rw [show st.command.take st.cursor_pos ++ c :: st.command.drop st.cursor_pos =
        (st.command.take st.cursor_pos ++ [c]) ++ st.command.drop st.cursor_pos by simp]
    rw [List.drop_append_of_le_length
      (by simp only [List.length_append, List.length_take, List.length_cons]; omega)]
    simp [Nat.min_eq_left hp]

/-- A sample editor state over the buffer `ab` with the cursor at 1. -/
def edSampleMid : EditorState :=
  { command := ['a', 'b'], cursor_pos := 1, history := [], history_index := -1,
    insert_mode := true }

/-- A sample editor state over the buffer `ab` with the cursor at 0. -/
def edSampleStart : EditorState :=
  { command := ['a', 'b'], cursor_pos := 0, history := [], history_index := -1,
    insert_mode := true }

/-- Witness for C3: inserting `x` into `ab` at cursor 1 gives a buffer of
length 3 whose character at index 1 is `x`. -/
theorem C3_insert_printable_witness :
    (edit_command_step [] edSampleMid (.printable 'x')).command.length = 3 ∧
    (edit_command_step [] edSampleMid (.printable 'x')).command.getD 1 ' ' = 'x' :=
  ⟨(C3_insert_printable [] edSampleMid 'x' rfl (by decide)).1,
   (C3_insert_printable [] edSampleMid 'x' rfl (by decide)).2.1⟩

/-- C4: Backspace at cursor 0 and Delete at cursor `len(buffer)` are no-ops on
the whole state; at any other position Backspace removes the character before
the cursor and retreats the cursor by one, and Delete removes the character
under the cursor without moving it. -/
theorem C4_backspace_delete_edges (initial : List Char) (st : EditorState) :
    (st.cursor_pos = 0 → edit_command_step initial st .backspace = st) ∧
    (st.cursor_pos = st.command.length → edit_command_step initial st .delete = st) ∧
    (0 < st.cursor_pos →
      (edit_command_step initial st .backspace).command =
        st.command.eraseIdx (st.cursor_pos - 1) ∧
      (edit_command_step initial st .backspace).cursor_pos = st.cursor_pos - 1) ∧
    (st.cursor_pos < st.command.length →
      (edit_command_step initial st .delete).command =
        st.command.eraseIdx st.cursor_pos ∧
      (edit_command_step initial st .delete).cursor_pos = st.cursor_pos) := by
  refine ⟨?_, ?_, ?_, ?_⟩
  · intro h
    simp [edit_command_step, h]
  · intro h
    simp [edit_command_step, h]
  · intro h
    simp only [edit_command_step, if_pos h]
    refine ⟨?_, trivial⟩
    rw [List.eraseIdx_eq_take_drop_succ]
    have hs : st.cursor_pos - 1 + 1 = st.cursor_pos := by omega
    rw [hs]
  · intro h
    simp only [edit_command_step, if_pos h]
    exact ⟨(List.eraseIdx_eq_take_drop_succ _ _).symm, trivial⟩

/-- Witness for C4 at a concrete state: backspace at cursor 0 in `ab` is a
no-op, and delete at cursor 1 removes `b` from `ab`. -/
theorem C4_backspace_delete_edges_witness :
    edit_command_step [] edSampleStart .backspace = edSampleStart ∧
    (edit_command_step [] edSampleMid .delete).command = ['a'] :=
  ⟨(C4_backspace_delete_edges [] edSampleStart).1 rfl,
   by
    have h := (C4_backspace_delete_edges [] edSampleMid).2.2.2 (by decide)
    rw [h.1]
    decide⟩

/-- C5: every key-event transition of the editor preserves the `EditBuffer`
invariant: from any state with the cursor within buffer bounds and the history
cursor either −1 or a valid history index, the state after handling any key
event satisfies the same bounds again. -/
theorem C5_edit_step_preserves_invariant (initial : List Char) (st : EditorState)
    (k : EditorKey) (h : EditorInvariant st) :
    EditorInvariant (edit_command_step initial st k) := by
  obtain ⟨hc, hh⟩ := h
  cases k with
  | enter => exact ⟨hc, hh⟩
  | ctrlC => exact ⟨hc, hh⟩
  | ctrlD => exact ⟨hc, hh⟩
  | backspace =>
    simp only [edit_command_step]
    split
    · refine ⟨?_, hh⟩
      dsimp only
      simp only [List.length_append, List.length_take, List.length_drop]
      omega
    · exact ⟨hc, hh⟩
  | delete =>
    simp only [edit_command_step]
    split
    · next hlt =>
      refine ⟨?_, hh⟩
      dsimp only
      simp only [List.length_append, List.length_take, List.length_drop]
      omega
    · exact ⟨hc, hh⟩
  | leftArrow =>
    simp only [edit_command_step]
    split
    · refine ⟨?_, hh⟩
      dsimp only
      omega
    · exact ⟨hc, hh⟩
  | rightArrow =>
    simp only [edit_command_step]
    split
    · next hlt =>
      refine ⟨?_, hh⟩
      dsimp only
      omega
    · exact ⟨hc, hh⟩
  | ctrlLeft =>
    simp only [edit_command_step]
    split
    · next hpos => exact ⟨wordLeftPos_le _ _ hc hpos, hh⟩
    · exact ⟨hc, hh⟩
  | ctrlRight =>
    simp only [edit_command_step]
    split
    · next hlt => exact ⟨wordRightPos_le _ _ hc, hh⟩
    · exact ⟨hc, hh⟩
  | home => exact ⟨Nat.zero_le _, hh⟩
  | endKey => exact ⟨Nat.le_refl _, hh⟩
  | ctrlU => exact ⟨Nat.zero_le _, hh⟩
  | ctrlK =>
    refine ⟨?_, hh⟩
    dsimp only [edit_command_step]
    simp only [List.length_take]
    omega
  | ctrlW =>
    simp only [edit_command_step]
    split
    · next hpos =>
      refine ⟨?_, hh⟩
      have hle := ctrlWPos_le st.command st.cursor_pos
      dsimp only
      simp only [List.length_append, List.length_take, List.length_drop]
      omega
    · exact ⟨hc, hh⟩
  | ctrlDelete =>
    simp only [edit_command_step]
    split
    · next hlt =>
      refine ⟨?_, hh⟩
      have hge := ctrlDelPos_ge st.command st.cursor_pos
      have hle := ctrlDelPos_le st.command st.cursor_pos hc
      dsimp only
      simp only [List.length_append, List.length_take, List.length_drop]
      omega
    · exact ⟨hc, hh⟩
  | upArrow =>
    simp only [edit_command_step]
    split
    · next hcond =>
      obtain ⟨hne, hlt⟩ := hcond
      refine ⟨Nat.le_refl _, Or.inr ⟨?_, ?_⟩⟩
      · dsimp only
        rcases hh with h1 | h1 <;> omega
      · dsimp only
        omega
    · exact ⟨hc, hh⟩
  | downArrow =>
    simp only [edit_command_step]
    split
    · next hgt =>
      refine ⟨Nat.le_refl _, Or.inr ⟨?_, ?_⟩⟩
      · dsimp only
        omega
      · dsimp only
        rcases hh with h1 | h1 <;> omega
    · split
      · exact ⟨Nat.le_refl _, Or.inl rfl⟩
      · exact ⟨hc, hh⟩
  | insertKey => exact ⟨hc, hh⟩
  | printable c =>
    simp only [edit_command_step]
    split
    · refine ⟨?_, hh⟩
      dsimp only
      simp only [List.length_append, List.length_take, List.length_cons,
        List.length_drop]
      omega
    · split
      · next hlt =>
        refine ⟨?_, hh⟩
        dsimp only
        simp only [List.length_append, List.length_take, List.length_cons,
          List.length_drop]
        omega
      · refine ⟨?_, hh⟩
        dsimp only
        simp only [List.length_append, List.length_cons]
        omega
  | other => exact ⟨hc, hh⟩

/-- Witness for C5 at a concrete state: the invariant holds before and after
an Up-arrow from the sample state with one history entry. -/
def edSampleHist : EditorState :=
  { command := ['l', 's'], cursor_pos := 2, history := [['p', 'w', 'd']],
    history_index := -1, insert_mode := true }

/-- Witness for C5: the sample state satisfies the invariant, and so does its
successor under the Up-arrow key. -/
theorem C5_edit_step_preserves_invariant_witness :
    EditorInvariant edSampleHist ∧
    EditorInvariant (edit_command_step [] edSampleHist .upArrow) :=
  ⟨by decide, C5_edit_step_preserves_invariant [] edSampleHist .upArrow (by decide)⟩

/-- C6: history navigation is idempotent at both boundaries: with the history
cursor at the oldest entry (`len(history) - 1`), a further Up key leaves the
state — hence the displayed buffer — unchanged; and a Down key from history
cursor 0 restores exactly the original initial text and resets the history
cursor to −1. -/
theorem C6_history_boundaries (initial : List Char) (st : EditorState) :
    (st.history_index = (st.history.length : Int) - 1 →
      edit_command_step initial st .upArrow = st) ∧
    (st.history_index = 0 →
      edit_command_step initial st .downArrow =
        { st with history_index := -1, command := initial,
                  cursor_pos := initial.length }) := by
  constructor
  · intro hidx
    simp only [edit_command_step]
    rw [if_neg]
    intro hcond
    obtain ⟨_, hlt⟩ := hcond
    omega
  · intro hidx
    simp only [edit_command_step]
    rw [if_neg (by omega), if_pos hidx]

/-- Witness for C6: from a two-entry history at the oldest entry, Up is a
no-op; and from history cursor 0, Down restores the initial text `ls`. -/
def edSampleOldest : EditorState :=
  { command := ['p', 'w', 'd'], cursor_pos := 3,
    history := [['p', 'w', 'd'], ['d', 'u']], history_index := 1,
    insert_mode := true }

/-- A sample state browsing at the most recent history entry. -/
def edSampleNewest : EditorState :=
  { command := ['d', 'u'], cursor_pos := 2,
    history := [['p', 'w', 'd'], ['d', 'u']], history_index := 0,
    insert_mode := true }

/-- Witness for C6 at concrete states with history `[pwd, du]`. -/
theorem C6_history_boundaries_witness :
    edit_command_step ['l', 's'] edSampleOldest .upArrow = edSampleOldest ∧
    edit_command_step ['l', 's'] edSampleNewest .downArrow =
      { edSampleNewest with history_index := -1, command := ['l', 's'],
                            cursor_pos := 2 } :=
  ⟨(C6_history_boundaries ['l', 's'] edSampleOldest).1 (by decide),
   (C6_history_boundaries ['l', 's'] edSampleNewest).2 rfl⟩

/-- Witness for C7: at width 12 with the light vertical bar and the
escape-free content line `ok`, the rendered row has visible length exactly
12. -/
theorem C7_box_row_visible_width_witness :
    '│' ∈ verticalGlyphs ∧ (stripAnsi ['o', 'k']).length + 4 < 12 ∧
    (stripAnsi (draw_box_content_row 12 '│' ['o', 'k'])).length = 12 := by
  have hno : stripAnsi ['o', 'k'] = ['o', 'k'] := stripAnsi_no_esc (by decide)
  refine ⟨by decide, by rw [hno]; decide, ?_⟩
  exact C7_box_row_visible_width 12 '│' ['o', 'k'] (by decide) (by rw [hno]; decide)

/-- A concrete suggestion with one alternative, used in counterexamples and
witnesses. -/
def sugSample : CommandSuggestion :=
  { command := "ls -la", explanation := "list files", risk_level := "LOW",
    alternatives := ["ls"], context_hints := [] }

/-- Counterexample to C2 as stated: after the Ctrl+C (clipboard) gesture on a
concrete suggestion, the iteration of `process_command_interaction` does not
loop back to the Displaying state — it returns `None` to the caller, ending
the review. -/
theorem C2_clipboard_loops_counterexample :
    handle_gesture_input sugSample "\x03" =
      some (("clipboard", some "ls -la"), []) ∧
    (process_step sugSample "clipboard" (some "ls -la") true none).1 =
      LoopOutcome.ret none ∧
    LoopOutcome.ret none ≠ LoopOutcome.again := by
  decide

/-- C2 (amended): the Ctrl+C gesture maps to the clipboard action carrying the
active command; the iteration then invokes the clipboard collaborator on that
command, reports success or failure, leaves the suggestion record unaltered —
but it is terminal: the loop returns `None` (ending the review) rather than
returning to the Displaying state. -/
theorem C2_clipboard_copy_terminal :
    ∀ (s : CommandSuggestion) (clipOk : Bool),
      handle_gesture_input s "\x03" = some (("clipboard", some s.command), []) ∧
      process_step s "clipboard" (some s.command) clipOk none =
        (LoopOutcome.ret none, s,
          ReviewEffect.copyClipboard s.command ::
            (if clipOk then [ReviewEffect.reportCopySuccess]
             else [ReviewEffect.reportCopyFailure s.command])) := by
  intro s clipOk
  constructor
  · simp [handle_gesture_input]
  · simp [process_step, pyFormatOpt]

/-- C8: when the alternatives list is empty, the Ctrl+A gesture produces the
transient no-alternatives notice and the redraw action, and the following
iteration clears the screen and loops back to the display state with the
suggestion record — every field — unchanged. -/
theorem C8_no_alternatives_notice_redraw :
    ∀ (s : CommandSuggestion) (clipOk : Bool) (altSel : Option String),
      s.alternatives = [] →
      handle_gesture_input s "\x01" =
        some (("redraw", none), [ReviewEffect.noAlternativesNotice]) ∧
      process_step s "redraw" none clipOk altSel =
        (LoopOutcome.again, s, [ReviewEffect.clearScreen]) := by
  intro s clipOk altSel halt
  constructor
  · simp [handle_gesture_input, halt]
  · simp [process_step]

/-- A concrete suggestion with no alternatives. -/
def sugNoAlt : CommandSuggestion :=
  { command := "pwd", explanation := "", risk_level := "LOW",
    alternatives := [], context_hints := [] }

/-- Witness for C8 at a concrete suggestion with an empty alternatives
list. -/
theorem C8_no_alternatives_notice_redraw_witness :
    handle_gesture_input sugNoAlt "\x01" =
      some (("redraw", none), [ReviewEffect.noAlternativesNotice]) ∧
    process_step sugNoAlt "redraw" none true none =
      (LoopOutcome.again, sugNoAlt, [ReviewEffect.clearScreen]) :=
  ⟨(C8_no_alternatives_notice_redraw sugNoAlt true none rfl).1,
   (C8_no_alternatives_notice_redraw sugNoAlt true none rfl).2⟩

/-- A concrete suggestion whose only alternative is the empty string. -/
def sugEmptyAlt : CommandSuggestion :=
  { command := "ls", explanation := "e", risk_level := "LOW",
    alternatives := [""], context_hints := [] }

/-- Counterexample to C9 as stated: the selection loop can return the empty
string — an element of the alternatives list — yet the command field is left
at `ls` instead of being set to that chosen alternative, because the
assignment is guarded by Python truthiness. -/
theorem C9_empty_alternative_counterexample :
    show_alternatives_step sugEmptyAlt.alternatives "1" "\x0d" =
      AltLoopState.done (some "") ∧
    (process_step sugEmptyAlt "alternatives" none true (some "")).2.1.command =
      "ls" ∧
    ("ls" : String) ≠ "" := by
  decide

/-- C9 (amended): during review the suggestion record is modified only through
alternative selection; the alternatives branch applies exactly
`apply_alternative`, every other action leaves the record untouched; selection
never changes the explanation, risk level, alternatives, hints, estimated
time, or the sudo/destructive flags; a selected non-empty alternative becomes
the command, while a cancelled selection — or a selected empty string, which
is equally falsy — leaves the command unchanged; and any string the selection
loop returns on Enter is an element of the alternatives list. -/
theorem C9_suggestion_frame (s : CommandSuggestion) (action : String)
    (result : Option String) (clipOk : Bool) (altSel : Option String) :
    ((process_step s "alternatives" result clipOk altSel).2.1 =
      apply_alternative s altSel) ∧
    (action ≠ "alternatives" →
      (process_step s action result clipOk altSel).2.1 = s) ∧
    ((apply_alternative s altSel).explanation = s.explanation ∧
     (apply_alternative s altSel).risk_level = s.risk_level ∧
     (apply_alternative s altSel).alternatives = s.alternatives ∧
     (apply_alternative s altSel).context_hints = s.context_hints ∧
     (apply_alternative s altSel).estimated_time = s.estimated_time ∧
     (apply_alternative s altSel).requires_sudo = s.requires_sudo ∧
     (apply_alternative s altSel).is_destructive = s.is_destructive) ∧
    (∀ sel, altSel = some sel → sel ≠ "" →
      (apply_alternative s altSel).command = sel) ∧
    ((altSel = none ∨ altSel = some "") →
      (apply_alternative s altSel).command = s.command) ∧
    (∀ (alts : List String) (selection key x : String),
      show_alternatives_step alts selection key = AltLoopState.done (some x) →
        x ∈ alts) := by
  refine ⟨?_, ?_, ?_, ?_, ?_, ?_⟩
  · simp [process_step]
  · intro hne
    simp only [process_step]
    split_ifs <;> rfl
  · rcases altSel with _ | sel
    · exact ⟨rfl, rfl, rfl, rfl, rfl, rfl, rfl⟩
    · by_cases hs : sel = ""
      · simp [apply_alternative, hs]
      · simp [apply_alternative, hs]
  · intro sel heq hne
    subst heq
    simp [apply_alternative, hne]
  · intro h
    rcases h with h | h <;> subst h <;> simp [apply_alternative]
  · intro alts selection key x hstep
    simp only [show_alternatives_step] at hstep
    by_cases hk : key = "\x0d" ∨ key = "\n"
    · rw [if_pos hk] at hstep
      by_cases hd : pyIsDigit selection = true
      · rw [if_pos hd] at hstep
        by_cases hrange : 0 ≤ (pyInt selection : Int) - 1 ∧
            (pyInt selection : Int) - 1 < (alts.length : Int)
        · rw [if_pos hrange] at hstep
          injection hstep with hsome
          injection hsome with hx
          subst hx
          have hlt : ((pyInt selection : Int) - 1).toNat < alts.length := by
            omega
          rw [List.getD_eq_getElem?_getD, List.getElem?_eq_getElem hlt]
          exact List.getElem_mem hlt
        · rw [if_neg hrange] at hstep
          cases hstep
      · rw [if_neg hd] at hstep
        cases hstep
    · rw [if_neg hk] at hstep
      by_cases hc : key = "\x03" ∨ key = "\x1b"
      · rw [if_pos hc] at hstep
        injection hstep with hsome
        cases hsome
      · rw [if_neg hc] at hstep
        split_ifs at hstep

/-- Witness for C9: selecting the non-empty alternative `ls` sets the command
field, and the help action leaves the sample suggestion untouched. -/
theorem C9_suggestion_frame_witness :
    (apply_alternative sugSample (some "ls")).command = "ls" ∧
    (process_step sugSample "help" none true none).2.1 = sugSample :=
  ⟨(C9_suggestion_frame sugSample "help" none true (some "ls")).2.2.2.1 "ls" rfl
      (by decide),
   (C9_suggestion_frame sugSample "help" none true (some "ls")).2.1 (by decide)⟩
